import Mathlib

/-
Verification development for util/Trinity_gene_splice_modeler.py.

The Python module is shallowly embedded below.  Python strings are modelled
as List Char (nucleotide sequences, path annotations) or as Lean String
(names and identifiers); Python object identity for Node instances is made
explicit with an allocation counter (uid) threaded through a PyState value;
Python exceptions are modelled with Except PyErr; Python set objects over
hashable values are modelled as Finset; the numpy similarity matrix is
modelled as a list of rows of natural numbers (the program only ever stores
set cardinalities in it).

List indexing that Python would perform with a possible IndexError is
modelled with Except-valued accessors (the E-suffixed definitions); total
shadows (T-suffixed) are provided and connected to the E versions by
theorems under the well-formedness hypotheses that make the indexing safe.
-/

set_option maxHeartbeats 1000000

/-- Python runtime errors relevant to the embedded module: an unresolved
global name, an out-of-range list index, and an exception object raised
with a message. -/
inductive PyErr where
  | nameError (missing : String) : PyErr
  | indexError : PyErr
  | runtimeError (msg : String) : PyErr
deriving DecidableEq, Repr

/-- A locus segment, mirroring class Node of the source.  The source also
declares never-populated prev/next adjacency sets; they are omitted here
(the spec marks them as a reserved, unused extension point).  The uid field
is not a Python attribute: it models object identity (each evaluation of
the constructor expression Node(...) yields a fresh object). -/
structure Node where
  transcript_name : String
  loc_node_id : String
  seq : List Char
  len : Nat
  uid : Nat
deriving DecidableEq, Repr

/-- The mutable interpreter state the embedded code touches: the allocation
counter for object identity and the class-level Node.node_cache dict
(modelled as an association list, insertion at the front). -/
structure PyState where
  next_uid : Nat
  node_cache : List (String × Node)
deriving DecidableEq, Repr

/-- Evaluation of the constructor expression Node(transcript_name,
loc_node_id, node_seq): Node.__init__ stores the three attributes and
len = len(node_seq); a fresh object identity is allocated. -/
def Node.new (st : PyState) (transcript_name loc_node_id : String) (node_seq : List Char) :
    Node × PyState :=
  (⟨transcript_name, loc_node_id, node_seq, node_seq.length, st.next_uid⟩,
   ⟨st.next_uid + 1, st.node_cache⟩)

/-- Node.get_node_id: the identity key string
"transcript_name::loc_node_id::len(node_seq)". -/
def Node.get_node_id (transcript_name loc_node_id : String) (node_seq : List Char) : String :=
  transcript_name ++ "::" ++ loc_node_id ++ "::" ++ toString node_seq.length

/-- The names bound at module scope of Trinity_gene_splice_modeler.py:
the imported modules, logger, the four classes and main.  Notably absent:
get_node_id and node_cache (they exist only as attributes of class Node)
and RuntimeException (never defined anywhere; not a Python builtin). -/
def module_globals : List String :=
  ["os", "sys", "re", "logging", "argparse", "collections", "numpy",
   "logger", "Node", "Node_path", "Trinity_fasta_parser", "Node_alignment",
   "Gene_splice_modeler", "main"]

/-- Node.get_node, embedded with Python name resolution made explicit: each
bare-name load in the method body first consults module_globals (inside a
method body, a bare name that is not a local resolves at module/builtin
scope, never at class scope).  The body reads get_node_id and node_cache as
bare names, so the very first statement raises NameError. -/
def Node.get_node (st : PyState) (transcript_name loc_node_id : String) (node_seq : List Char) :
    Except PyErr (Node × PyState) :=
  if "get_node_id" ∈ module_globals then
    let node_id := Node.get_node_id transcript_name loc_node_id node_seq
    if "node_cache" ∈ module_globals then
      match st.node_cache.lookup node_id with
      | some node_obj =>
          if node_obj.seq ≠ node_seq then
            if "RuntimeException" ∈ module_globals then
              Except.error (PyErr.runtimeError node_id)
            else
              Except.error (PyErr.nameError "RuntimeException")
          else
            Except.ok (node_obj, st)
      | none =>
          let p := Node.new st transcript_name loc_node_id node_seq
          Except.ok (p.1, ⟨p.2.next_uid, (node_id, p.1) :: p.2.node_cache⟩)
    else
      Except.error (PyErr.nameError "node_cache")
  else
    Except.error (PyErr.nameError "get_node_id")

/-- One match of the path-token pattern: the three digit groups of
LOC:START-END. -/
structure Token where
  loc : List Char
  lend : List Char
  rend : List Char
deriving DecidableEq, Repr

/-- The exact character run a Token was matched from. -/
def Token.chars (tk : Token) : List Char :=
  tk.loc ++ ':' :: tk.lend ++ '-' :: tk.rend

/-- Attempt to match the regular expression for one path token (digits,
colon, digits, hyphen, digits) at the start of cs, returning the token and
the unconsumed rest.  Greedy maximal munch on each digit group is exact for
this pattern: a digit group is always followed by a non-digit mandatory
character, so no backtracking can ever succeed where maximal munch fails.
Char.isDigit models the \d class on the ASCII inputs this program reads. -/
def matchToken (cs : List Char) : Option (Token × List Char) :=
  let d1 := cs.takeWhile Char.isDigit
  match cs.dropWhile Char.isDigit with
  | ':' :: r2 =>
    if d1.isEmpty then none else
    let d2 := r2.takeWhile Char.isDigit
    match r2.dropWhile Char.isDigit with
    | '-' :: r4 =>
      if d2.isEmpty then none else
      let d3 := r4.takeWhile Char.isDigit
      if d3.isEmpty then none
      else some (⟨d1, d2, d3⟩, r4.dropWhile Char.isDigit)
    | _ => none
  | _ => none

/-- Fuelled scanner behind findall: at each position try a match; on
success continue after the match, otherwise advance one character, exactly
the left-to-right non-overlapping semantics of re.findall.  Every step
consumes at least one character and one unit of fuel, so fuel equal to the
input length (as findall supplies) is never exhausted early. -/
def findallAux : Nat → List Char → List Token
  | 0, _ => []
  | _ + 1, [] => []
  | fuel + 1, c :: cs =>
    match matchToken (c :: cs) with
    | some (tok, rest) => tok :: findallAux fuel rest
    | none => findallAux fuel cs

/-- re.findall of the path-token pattern over a path string. -/
def findall (cs : List Char) : List Token :=
  findallAux cs.length cs

/-- int() on a digit string. -/
def digitsToNat (l : List Char) : Nat :=
  l.foldl (fun a c => a * 10 + (c.toNat - 48)) 0

/-- An ordered list of decoded nodes for one isoform, mirroring class
Node_path. -/
structure Node_path where
  transcript_name : String
  node_obj_list : List Node
deriving DecidableEq, Repr

/-- The token loop of Node_path.__init__: for each matched token, split
out LOC, START and END (a token has exactly one colon and, after it,
exactly one hyphen, so the split is the three digit groups), slice
sequence[START : END+1] and evaluate Node(...) on the slice.  List.drop
and List.take clamp out-of-range bounds exactly as a Python slice with
nonnegative indices does. -/
def decodeTokens (transcript_name : String) (sequence : List Char) :
    List Token → PyState → List Node × PyState
  | [], st => ([], st)
  | tk :: rest, st =>
    let lend := digitsToNat tk.lend
    let rend := digitsToNat tk.rend
    let p := Node.new st transcript_name (String.mk tk.loc) ((sequence.drop lend).take (rend + 1 - lend))
    let r := decodeTokens transcript_name sequence rest p.2
    (p.1 :: r.1, r.2)

/-- Node_path.__init__: find all path tokens and decode each into a Node,
in order. -/
def Node_path.build (transcript_name : String) (path_string sequence : List Char)
    (st : PyState) : Node_path × PyState :=
  let r := decodeTokens transcript_name sequence (findall path_string) st
  (⟨transcript_name, r.1⟩, r.2)

/-- The characters of s at positions a..b inclusive, written positionally
and independently of Python slicing mechanics (used to state the decoder
round trip). -/
def seqSegment (s : List Char) (a b : Nat) : List Char :=
  (List.range' a (b + 1 - a)).map (fun i => s.getD i ' ')

/-- A nonempty all-digit character run. -/
def isDigits (l : List Char) : Bool :=
  !l.isEmpty && l.all Char.isDigit

/-- A character run that matches the token grammar LOC:START-END exactly. -/
def grammarToken (t : List Char) : Prop :=
  ∃ d1 d2 d3 : List Char, isDigits d1 = true ∧ isDigits d2 = true ∧ isDigits d3 = true ∧
    t = d1 ++ ':' :: d2 ++ '-' :: d3

/-- The error kind the spec names for an accession without an isoform
suffix.  At the failing raise site the source references RuntimeException,
a name defined nowhere, so the exception that actually propagates is the
NameError for that identifier; the spec records this unresolved identifier
as a latent defect and names the abstract error kind instead. -/
def IsoformSuffixError : PyErr := PyErr.nameError "RuntimeException"

/-- re.sub of the anchored pattern for an _i<digits> suffix with the empty
replacement.  Because the pattern is anchored at the end and its digit
group must reach the end of the string, a match position, when one exists,
is unique: it is determined by the maximal trailing digit run, which must
be nonempty and be preceded by the two characters i and underscore. -/
def strip_isoform_suffix (acc : List Char) : List Char :=
  let r := acc.reverse
  let ds := r.takeWhile Char.isDigit
  if ds.isEmpty then acc
  else
    match r.dropWhile Char.isDigit with
    | 'i' :: '_' :: rest2 => rest2.reverse
    | _ => acc

/-- The gene-id derivation step of Trinity_fasta_parser.add_trinity_seq_entry:
strip the isoform suffix; if nothing was stripped the source raises (see
IsoformSuffixError), otherwise the stripped accession is the gene id. -/
def derive_gene_id (acc : List Char) : Except PyErr (List Char) :=
  let gene_id := strip_isoform_suffix acc
  if gene_id = acc then Except.error IsoformSuffixError
  else Except.ok gene_id

/-- One (or several) isoforms as rows of node slots, mirroring class
Node_alignment; a cell is a Node reference or the GAP sentinel None. -/
structure Node_alignment where
  transcript_names : List String
  aligned_nodes : List (List (Option Node))
deriving DecidableEq, Repr

/-- The gap sentinel (None in the source). -/
def Node_alignment.GAP : Option Node := none

/-- Node_alignment.get_single_seq_node_alignment: a one-row, gap-free
alignment whose columns are the path's nodes in order. -/
def Node_alignment.get_single_seq_node_alignment (transcript_name : String)
    (path_obj : Node_path) : Node_alignment :=
  ⟨[transcript_name], [path_obj.node_obj_list.map some]⟩

/-- len(align_obj): the number of transcripts (rows declared by name). -/
def Node_alignment.numTrans (a : Node_alignment) : Nat :=
  a.transcript_names.length

/-- Node_alignment.width: len(self.aligned_nodes[0]); IndexError when there
are no rows. -/
def Node_alignment.widthE (a : Node_alignment) : Except PyErr Nat :=
  match a.aligned_nodes with
  | [] => Except.error PyErr.indexError
  | r :: _ => Except.ok r.length

/-- Total shadow of width (row 0 read with a default). -/
def Node_alignment.widthT (a : Node_alignment) : Nat :=
  (a.aligned_nodes.getD 0 []).length

/-- self.aligned_nodes[i][j] with Python IndexError semantics. -/
def Node_alignment.cellE (a : Node_alignment) (i j : Nat) : Except PyErr (Option Node) :=
  match a.aligned_nodes[i]? with
  | none => Except.error PyErr.indexError
  | some row =>
    match row[j]? with
    | none => Except.error PyErr.indexError
    | some c => Except.ok c

/-- Total shadow of cell access. -/
def Node_alignment.cellT (a : Node_alignment) (i j : Nat) : Option Node :=
  (a.aligned_nodes.getD i []).getD j Node_alignment.GAP

/-- Node_alignment.get_node_set: iterate every row index below the
transcript count and every column index below the width, adding each
non-None cell to a set. -/
def Node_alignment.get_node_setE (a : Node_alignment) : Except PyErr (Finset Node) := do
  let w ← a.widthE
  (List.range a.numTrans).foldlM (fun s i =>
    (List.range w).foldlM (fun s j => do
      let c ← a.cellE i j
      pure (match c with | some nd => insert nd s | none => s)) s) (∅ : Finset Node)

/-- Total shadow of get_node_set. -/
def Node_alignment.get_node_setT (a : Node_alignment) : Finset Node :=
  (List.range a.numTrans).foldl (fun s i =>
    (List.range a.widthT).foldl (fun s j =>
      match a.cellT i j with
      | some nd => insert nd s
      | none => s) s) (∅ : Finset Node)

/-- Node_alignment.get_node_loc_ids: project a node set to the set of its
locus ids. -/
def Node_alignment.get_node_loc_ids (s : Finset Node) : Finset String :=
  s.image Node.loc_node_id

/-- Node_alignment.compute_number_common_nodes: the intersection of the two
alignments' locus-id sets (the caller takes its len). -/
def Node_alignment.compute_number_common_nodesE (A B : Node_alignment) :
    Except PyErr (Finset String) := do
  let sa ← A.get_node_setE
  let sb ← B.get_node_setE
  pure (Node_alignment.get_node_loc_ids sa ∩ Node_alignment.get_node_loc_ids sb)

/-- Total shadow of compute_number_common_nodes. -/
def Node_alignment.commonT (A B : Node_alignment) : Finset String :=
  Node_alignment.get_node_loc_ids A.get_node_setT ∩ Node_alignment.get_node_loc_ids B.get_node_setT

/-- The validity invariant making the alignment accessors total: at least
one row, one declared transcript name per row, and all rows of equal
length. -/
def Node_alignment.wfB (a : Node_alignment) : Bool :=
  !a.aligned_nodes.isEmpty &&
  a.transcript_names.length == a.aligned_nodes.length &&
  a.aligned_nodes.all (fun r => r.length == a.widthT)

/-- sim_matrix[i][j] = v on the list-of-rows model of the numpy matrix. -/
def matSet (m : List (List Nat)) (i j v : Nat) : List (List Nat) :=
  m.set i ((m.getD i []).set j v)

/-- Read entry (i, j) of the matrix, 0 outside its extent. -/
def entryD (m : List (List Nat)) (i j : Nat) : Nat :=
  (m.getD i []).getD j 0

/-- A placeholder alignment used as the default of in-bounds list reads. -/
def dfltAlign : Node_alignment := ⟨[], []⟩

/-- Gene_splice_modeler.compute_similarity_matrix: start from the zero
matrix; for every i < n-1 and every j with i < j < n, compute the common
locus-id set of alignments i and j once and write its cardinality into
cells (i, j) and (j, i). -/
def Gene_splice_modeler.compute_similarity_matrixE (al : List Node_alignment) :
    Except PyErr (List (List Nat)) :=
  let n := al.length
  (List.range (n - 1)).foldlM (fun m i =>
    (List.range' (i + 1) (n - 1 - i)).foldlM (fun m j => do
      let common ← Node_alignment.compute_number_common_nodesE
        (al.getD i dfltAlign) (al.getD j dfltAlign)
      pure (matSet (matSet m i j common.card) j i common.card)) m)
    (List.replicate n (List.replicate n 0))

/-- Total shadow of compute_similarity_matrix. -/
def simT (al : List Node_alignment) : List (List Nat) :=
  let n := al.length
  (List.range (n - 1)).foldl (fun m i =>
    (List.range' (i + 1) (n - 1 - i)).foldl (fun m j =>
      let common := Node_alignment.commonT (al.getD i dfltAlign) (al.getD j dfltAlign)
      matSet (matSet m i j common.card) j i common.card) m)
    (List.replicate n (List.replicate n 0))

/-- The off-diagonal value the program computes for the pair (i, j). -/
def simVal (al : List Node_alignment) (i j : Nat) : Nat :=
  (Node_alignment.commonT (al.getD i dfltAlign) (al.getD j dfltAlign)).card

/-- The alignment-building loop of Gene_splice_modeler.__init__: one
singleton alignment per node path, order preserved. -/
def Gene_splice_modeler.build_alignments (paths : List Node_path) : List Node_alignment :=
  paths.map (fun p => Node_alignment.get_single_seq_node_alignment p.transcript_name p)

/-- One parsed isoform record as the driver consumes it: the three fields
of the iso_struct dict. -/
structure IsoStruct where
  transcript_name : String
  path : List Char
  seq : List Char
deriving DecidableEq, Repr

/-- The per-gene decoding loop of main: one Node_path per isoform record,
state threaded left to right. -/
def decodeGenePaths : List IsoStruct → PyState → List Node_path × PyState
  | [], st => ([], st)
  | iso :: rest, st =>
    let p := Node_path.build iso.transcript_name iso.path iso.seq st
    let r := decodeGenePaths rest p.2
    (p.1 :: r.1, r.2)

/-- The gene loop of main over the grouped records: a gene with fewer than
two isoforms is skipped; otherwise its paths are decoded and
Gene_splice_modeler computes the similarity matrix, which is the gene's
output artifact. -/
def processGenesE : List (String × List IsoStruct) → PyState →
    Except PyErr (List (String × List (List Nat)) × PyState)
  | [], st => Except.ok ([], st)
  | g :: rest, st =>
    if g.2.length < 2 then processGenesE rest st
    else do
      let pr := decodeGenePaths g.2 st
      let m ← Gene_splice_modeler.compute_similarity_matrixE
        (Gene_splice_modeler.build_alignments pr.1)
      let r ← processGenesE rest pr.2
      pure ((g.1, m) :: r.1, r.2)

/-- Total shadow of the gene loop. -/
def processGenesT : List (String × List IsoStruct) → PyState →
    List (String × List (List Nat)) × PyState
  | [], st => ([], st)
  | g :: rest, st =>
    if g.2.length < 2 then processGenesT rest st
    else
      let pr := decodeGenePaths g.2 st
      let m := simT (Gene_splice_modeler.build_alignments pr.1)
      let r := processGenesT rest pr.2
      ((g.1, m) :: r.1, r.2)

/-- Default Token for in-bounds list reads in theorem statements. -/
def dfltToken : Token := ⟨[], [], []⟩

/-- Default Node for in-bounds list reads in theorem statements. -/
def dfltNode : Node := ⟨"", "", [], 0, 0⟩

/-- Default Node_path for in-bounds list reads in theorem statements. -/
def dfltPath : Node_path := ⟨"", []⟩

/-- The (i, j) index pairs the similarity loops visit, in visit order:
i over range(0, n-1) and j over range(i+1, n). -/
def pairsL (n : Nat) : List (Nat × Nat) :=
  (List.range (n - 1)).flatMap (fun i => (List.range' (i + 1) (n - 1 - i)).map (fun j => (i, j)))

/-- The double write one visited pair performs on the matrix. -/
def writePair (al : List Node_alignment) (m : List (List Nat)) (p : Nat × Nat) :
    List (List Nat) :=
  matSet (matSet m p.1 p.2 (simVal al p.1 p.2)) p.2 p.1 (simVal al p.1 p.2)

/-- The locus ids of a path's nodes, in path order. -/
def pathLocIds (p : Node_path) : List String :=
  p.node_obj_list.map Node.loc_node_id

/-! Lemmas about the token matcher and scanner. -/

theorem matchToken_eq {cs : List Char} {tk : Token} {rest : List Char}
    (h : matchToken cs = some (tk, rest)) :
    cs = tk.chars ++ rest ∧ isDigits tk.loc = true ∧ isDigits tk.lend = true ∧
      isDigits tk.rend = true := by
  have hdigits : ∀ l : List Char, (l.takeWhile Char.isDigit).isEmpty = false →
      isDigits (l.takeWhile Char.isDigit) = true := by
    intro l hl
    simp only [isDigits, Bool.and_eq_true, Bool.not_eq_true', hl, true_and, List.all_eq_true]
    intro x hx
    exact List.mem_takeWhile_imp hx
  simp only [matchToken] at h
  split at h
  · split at h
    · exact absurd h (by simp)
    · split at h
      · split at h
        · exact absurd h (by simp)
        · split at h
          · exact absurd h (by simp)
          · rename_i x1 r2 heq1 hne1 x2 r4 heq2 hne2 hne3
            rw [Option.some.injEq, Prod.mk.injEq] at h
            obtain ⟨htk, hrest⟩ := h
            subst htk
            subst hrest
            refine ⟨?_, ?_, ?_, ?_⟩
            · simp only [Token.chars]
              conv_lhs => rw [← List.takeWhile_append_dropWhile (p := Char.isDigit) (l := cs)]
              conv_lhs => rw [heq1]
              conv_lhs => rw [← List.takeWhile_append_dropWhile (p := Char.isDigit) (l := r2)]
              conv_lhs => rw [heq2]
              conv_lhs => rw [← List.takeWhile_append_dropWhile (p := Char.isDigit) (l := r4)]
              simp
            · exact hdigits cs (by simpa using hne1)
            · exact hdigits r2 (by simpa using hne2)
            · exact hdigits r4 (by simpa using hne3)
      · exact absurd h (by simp)
  · exact absurd h (by simp)

theorem matchToken_grammar {cs : List Char} {tk : Token} {rest : List Char}
    (h : matchToken cs = some (tk, rest)) : grammarToken tk.chars := by
  obtain ⟨-, h1, h2, h3⟩ := matchToken_eq h
  exact ⟨tk.loc, tk.lend, tk.rend, h1, h2, h3, rfl⟩

theorem findallAux_mem {fuel : Nat} {cs : List Char} {tok : Token}
    (h : tok ∈ findallAux fuel cs) :
    tok.chars <:+: cs ∧ grammarToken tok.chars := by
  induction fuel generalizing cs with
  | zero => simp [findallAux] at h
  | succ fuel ih =>
    cases cs with
    | nil => simp [findallAux] at h
    | cons c cs =>
      unfold findallAux at h
      cases hm : matchToken (c :: cs) with
      | none =>
        rw [hm] at h
        obtain ⟨hinf, hgr⟩ := ih h
        exact ⟨hinf.trans (List.suffix_cons c cs).isInfix, hgr⟩
      | some pr =>
        obtain ⟨tk, rest⟩ := pr
        rw [hm] at h
        obtain ⟨hdec, -⟩ := matchToken_eq hm
        rcases List.mem_cons.mp h with heq | hmem
        · subst heq
          refine ⟨?_, matchToken_grammar hm⟩
          rw [hdec]
          exact (List.prefix_append tok.chars rest).isInfix
        · obtain ⟨hinf, hgr⟩ := ih hmem
          refine ⟨hinf.trans ?_, hgr⟩
          rw [hdec]
          exact (List.suffix_append tk.chars rest).isInfix

/-- C8: a path string with no substring matching the token grammar decodes,
without error, to a Node_path with an empty node list. -/
theorem c8_no_token_decodes_empty (transcript_name : String)
    (path_string sequence : List Char) (st : PyState)
    (h : ∀ t : List Char, t <:+: path_string → ¬ grammarToken t) :
    (Node_path.build transcript_name path_string sequence st).1.node_obj_list = [] := by
  cases hf : findall path_string with
  | nil => simp [Node_path.build, hf, decodeTokens]
  | cons tk rest =>
    exfalso
    have hmem : tk ∈ findall path_string := by rw [hf]; exact List.mem_cons_self tk rest
    obtain ⟨hinf, hgr⟩ := findallAux_mem hmem
    exact h tk.chars hinf hgr

/-- Witness for C8 at the concrete path string with no decodable token:
the empty annotation. -/
theorem c8_witness :
    (Node_path.build "TRINITY_DN0_c0_g1_i1" [] ['A', 'C'] ⟨0, []⟩).1.node_obj_list = [] := by
  refine c8_no_token_decodes_empty _ _ _ _ ?_
  intro t hinf hgr
  rw [List.infix_nil] at hinf
  subst hinf
  obtain ⟨d1, d2, d3, -, -, -, heq⟩ := hgr
  exact absurd heq.symm (by simp)

/-! Lemmas about the decoding loop. -/

theorem decodeTokens_length (t : String) (s : List Char) :
    ∀ (toks : List Token) (st : PyState), (decodeTokens t s toks st).1.length = toks.length := by
  intro toks
  induction toks with
  | nil => intro st; rfl
  | cons tk rest ih => intro st; simp [decodeTokens, ih]

theorem decodeTokens_state (t : String) (s : List Char) :
    ∀ (toks : List Token) (st : PyState),
      (decodeTokens t s toks st).2 = ⟨st.next_uid + toks.length, st.node_cache⟩ := by
  intro toks
  induction toks with
  | nil => intro st; simp [decodeTokens]
  | cons tk rest ih =>
    intro st
    simp only [decodeTokens, ih, Node.new, List.length_cons]
    congr 1
    omega

theorem decodeTokens_map_uid (t : String) (s : List Char) :
    ∀ (toks : List Token) (st : PyState),
      (decodeTokens t s toks st).1.map Node.uid = List.range' st.next_uid toks.length := by
  intro toks
  induction toks with
  | nil => intro st; rfl
  | cons tk rest ih =>
    intro st
    simp only [decodeTokens, List.map_cons, List.length_cons, List.range'_succ]
    exact List.cons_eq_cons.mpr ⟨rfl, ih _⟩

theorem decodeTokens_map_seq (t : String) (s : List Char) :
    ∀ (toks : List Token) (st : PyState),
      (decodeTokens t s toks st).1.map Node.seq = toks.map (fun tk =>
        (s.drop (digitsToNat tk.lend)).take (digitsToNat tk.rend + 1 - digitsToNat tk.lend)) := by
  intro toks
  induction toks with
  | nil => intro st; rfl
  | cons tk rest ih =>
    intro st
    simp only [decodeTokens, List.map_cons]
    exact List.cons_eq_cons.mpr ⟨rfl, ih _⟩

theorem decodeTokens_map_loc (t : String) (s : List Char) :
    ∀ (toks : List Token) (st : PyState),
      (decodeTokens t s toks st).1.map Node.loc_node_id
        = toks.map (fun tk => String.mk tk.loc) := by
  intro toks
  induction toks with
  | nil => intro st; rfl
  | cons tk rest ih =>
    intro st
    simp only [decodeTokens, List.map_cons]
    exact List.cons_eq_cons.mpr ⟨rfl, ih _⟩

theorem decodeTokens_len_eq_seq_length (t : String) (s : List Char) :
    ∀ (toks : List Token) (st : PyState) (nd : Node), nd ∈ (decodeTokens t s toks st).1 →
      nd.len = nd.seq.length := by
  intro toks
  induction toks with
  | nil => intro st nd h; simp [decodeTokens] at h
  | cons tk rest ih =>
    intro st nd h
    simp only [decodeTokens, List.mem_cons] at h
    rcases h with h | h
    · subst h; rfl
    · exact ih _ nd h

/-! The slice of the full sequence equals the positionally described
segment when END is inside the sequence. -/

theorem drop_take_map_range' (s : List Char) :
    ∀ (n a : Nat), a + n ≤ s.length →
      (s.drop a).take n = (List.range' a n).map (fun i => s.getD i ' ') := by
  intro n
  induction n with
  | zero => intro a _; simp
  | succ n ih =>
    intro a h
    have ha : a < s.length := by omega
    rw [List.drop_eq_getElem_cons ha, List.range'_succ, List.take_succ_cons, List.map_cons]
    congr 1
    · simp [List.getD_eq_getElem?_getD, List.getElem?_eq_getElem ha]
    · exact ih (a + 1) (by omega)

theorem slice_eq_seqSegment (s : List Char) (a b : Nat) (hb : b < s.length) :
    (s.drop a).take (b + 1 - a) = seqSegment s a b := by
  unfold seqSegment
  by_cases hab : a ≤ b
  · exact drop_take_map_range' s (b + 1 - a) a (by omega)
  · have h0 : b + 1 - a = 0 := by omega
    simp [h0]

/-- C5: when every decoded token's END coordinate lies inside the full
sequence, concatenating the decoded nodes' sequences in order reproduces
exactly the concatenation of the characters of the full sequence over the
path's coordinate ranges, in token order. -/
theorem c5_roundtrip (transcript_name : String) (path_string sequence : List Char)
    (st : PyState)
    (h : ∀ tk ∈ findall path_string, digitsToNat tk.rend < sequence.length) :
    ((Node_path.build transcript_name path_string sequence st).1.node_obj_list.map Node.seq).flatten
      = ((findall path_string).map
          (fun tk => seqSegment sequence (digitsToNat tk.lend) (digitsToNat tk.rend))).flatten := by
  simp only [Node_path.build]
  rw [decodeTokens_map_seq]
  congr 1
  apply List.map_congr_left
  intro tk htk
  exact slice_eq_seqSegment sequence _ _ (h tk htk)

/-- Witness for C5 at a concrete two-token path over a six-base sequence. -/
theorem c5_witness :
    (∀ tk ∈ findall ("1:0-3 2:4-5".data), digitsToNat tk.rend < ("ACGTAC".data).length) ∧
    ((Node_path.build "A_i1" ("1:0-3 2:4-5".data) ("ACGTAC".data) ⟨0, []⟩).1.node_obj_list.map
        Node.seq).flatten
      = ((findall ("1:0-3 2:4-5".data)).map
          (fun tk => seqSegment ("ACGTAC".data) (digitsToNat tk.lend) (digitsToNat tk.rend))).flatten :=
  ⟨by decide, c5_roundtrip "A_i1" ("1:0-3 2:4-5".data) ("ACGTAC".data) ⟨0, []⟩ (by decide)⟩

theorem getD_of_map {α β : Type} (f : α → β) (l : List α) (i : Nat) (hi : i < l.length)
    (d : β) (d' : α) : (l.map f).getD i d = f (l.getD i d') := by
  rw [List.getD_eq_getElem?_getD, List.getElem?_map, List.getElem?_eq_getElem hi,
    List.getD_eq_getElem?_getD, List.getElem?_eq_getElem hi]
  rfl

/-- C9: a token whose coordinate range is reversed (END + 1 <= START)
still decodes without error: its slice is empty, and a Node with empty
sequence and len 0 occupies that path position. -/
theorem c9_reversed_range (transcript_name : String) (path_string sequence : List Char)
    (st : PyState) (i : Nat) (hi : i < (findall path_string).length)
    (hrev : digitsToNat ((findall path_string).getD i dfltToken).rend + 1
        ≤ digitsToNat ((findall path_string).getD i dfltToken).lend) :
    (Node_path.build transcript_name path_string sequence st).1.node_obj_list.length
        = (findall path_string).length ∧
    ((Node_path.build transcript_name path_string sequence st).1.node_obj_list.getD i
        dfltNode).seq = [] ∧
    ((Node_path.build transcript_name path_string sequence st).1.node_obj_list.getD i
        dfltNode).len = 0 := by
  simp only [Node_path.build]
  have hlen : (decodeTokens transcript_name sequence (findall path_string) st).1.length
      = (findall path_string).length := decodeTokens_length _ _ _ _
  have hi' : i < (decodeTokens transcript_name sequence (findall path_string) st).1.length := by
    rw [hlen]; exact hi
  have hseq : ((decodeTokens transcript_name sequence (findall path_string) st).1.getD i
      dfltNode).seq = [] := by
    rw [← getD_of_map Node.seq _ i hi' [] dfltNode]
    rw [decodeTokens_map_seq]
    rw [getD_of_map _ _ i hi [] dfltToken]
    have hz : digitsToNat ((findall path_string).getD i dfltToken).rend + 1
        - digitsToNat ((findall path_string).getD i dfltToken).lend = 0 := by omega
    rw [hz]
    exact List.take_zero _
  refine ⟨hlen, hseq, ?_⟩
  have hmem : (decodeTokens transcript_name sequence (findall path_string) st).1.getD i dfltNode
      ∈ (decodeTokens transcript_name sequence (findall path_string) st).1 := by
    rw [List.getD_eq_getElem?_getD, List.getElem?_eq_getElem hi']
    exact List.getElem_mem hi'
  rw [decodeTokens_len_eq_seq_length transcript_name sequence (findall path_string) st _ hmem,
    hseq]
  rfl

/-- Witness for C9 at the concrete reversed-range token 5:10-3. -/
theorem c9_witness :
    0 < (findall ("5:10-3".data)).length ∧
    digitsToNat ((findall ("5:10-3".data)).getD 0 dfltToken).rend + 1
        ≤ digitsToNat ((findall ("5:10-3".data)).getD 0 dfltToken).lend ∧
    (Node_path.build "t_i1" ("5:10-3".data) ("ACGTACGT".data) ⟨0, []⟩).1.node_obj_list.length
        = (findall ("5:10-3".data)).length ∧
    ((Node_path.build "t_i1" ("5:10-3".data) ("ACGTACGT".data) ⟨0, []⟩).1.node_obj_list.getD 0
        dfltNode).seq = [] ∧
    ((Node_path.build "t_i1" ("5:10-3".data) ("ACGTACGT".data) ⟨0, []⟩).1.node_obj_list.getD 0
        dfltNode).len = 0 := by
  refine ⟨by decide, by decide, ?_⟩
  have h := c9_reversed_range "t_i1" ("5:10-3".data) ("ACGTACGT".data) ⟨0, []⟩ 0
    (by decide) (by decide)
  exact ⟨h.1, h.2.1, h.2.2⟩

/-! Node.get_node and the node cache. -/

/-- C2 (recording the code bug): every call to Node.get_node, whatever the
arguments and whatever the cache holds, fails with the NameError for
get_node_id, because the method body reads its own class attributes as
bare global names.  No call can ever return a Node, cached or fresh, and
the sequence-conflict branch is unreachable. -/
theorem c2_get_node_always_name_error (st : PyState) (transcript_name loc_node_id : String)
    (node_seq : List Char) :
    Node.get_node st transcript_name loc_node_id node_seq
      = Except.error (PyErr.nameError "get_node_id") := by
  unfold Node.get_node
  rw [if_neg (by decide)]

/-- C3 (amended): path decoding never consults the node cache and
constructs one fresh Node object per decoded token: the cache is returned
untouched and the decoded nodes carry pairwise distinct, consecutive
object identities, one per token. -/
theorem c3_amended_fresh_node_per_token (transcript_name : String)
    (path_string sequence : List Char) (st : PyState) :
    (Node_path.build transcript_name path_string sequence st).2.node_cache = st.node_cache ∧
    (Node_path.build transcript_name path_string sequence st).1.node_obj_list.map Node.uid
      = List.range' st.next_uid (findall path_string).length := by
  constructor
  · simp only [Node_path.build]
    rw [decodeTokens_state]
  · simp only [Node_path.build]
    exact decodeTokens_map_uid _ _ _ _

/-- C3 counterexample: decoding a path whose two tokens carry the same
identity key (same transcript, same locus id 1, same slice length 1)
creates two distinct Node objects for that one key, and the node cache is
not consulted, refuting that at most one Node is created per identity key
during decoding. -/
theorem c3_counterexample :
    ((Node_path.build "TRINITY_DN0_c0_g1_i1" ("1:0-0 1:0-0".data) ("AC".data)
        ⟨0, []⟩).1.node_obj_list.length = 2) ∧
    ((Node_path.build "TRINITY_DN0_c0_g1_i1" ("1:0-0 1:0-0".data) ("AC".data)
        ⟨0, []⟩).1.node_obj_list.getD 0 dfltNode).uid
      ≠ ((Node_path.build "TRINITY_DN0_c0_g1_i1" ("1:0-0 1:0-0".data) ("AC".data)
        ⟨0, []⟩).1.node_obj_list.getD 1 dfltNode).uid ∧
    Node.get_node_id
        ((Node_path.build "TRINITY_DN0_c0_g1_i1" ("1:0-0 1:0-0".data) ("AC".data)
          ⟨0, []⟩).1.node_obj_list.getD 0 dfltNode).transcript_name
        ((Node_path.build "TRINITY_DN0_c0_g1_i1" ("1:0-0 1:0-0".data) ("AC".data)
          ⟨0, []⟩).1.node_obj_list.getD 0 dfltNode).loc_node_id
        ((Node_path.build "TRINITY_DN0_c0_g1_i1" ("1:0-0 1:0-0".data) ("AC".data)
          ⟨0, []⟩).1.node_obj_list.getD 0 dfltNode).seq
      = Node.get_node_id
        ((Node_path.build "TRINITY_DN0_c0_g1_i1" ("1:0-0 1:0-0".data) ("AC".data)
          ⟨0, []⟩).1.node_obj_list.getD 1 dfltNode).transcript_name
        ((Node_path.build "TRINITY_DN0_c0_g1_i1" ("1:0-0 1:0-0".data) ("AC".data)
          ⟨0, []⟩).1.node_obj_list.getD 1 dfltNode).loc_node_id
        ((Node_path.build "TRINITY_DN0_c0_g1_i1" ("1:0-0 1:0-0".data) ("AC".data)
          ⟨0, []⟩).1.node_obj_list.getD 1 dfltNode).seq := by
  refine ⟨by decide, by decide, by decide⟩

/-! Gene-id derivation. -/

theorem takeWhile_all_append {p : Char → Bool} {l : List Char} (hl : ∀ c ∈ l, p c = true)
    {x : Char} (hx : p x = false) (r : List Char) :
    (l ++ x :: r).takeWhile p = l ∧ (l ++ x :: r).dropWhile p = x :: r := by
  induction l with
  | nil => simp [List.takeWhile_cons, List.dropWhile_cons, hx]
  | cons a t ih =>
    have ha := hl a (List.mem_cons_self a t)
    have ht := ih (fun c hc => hl c (List.mem_cons_of_mem a hc))
    simp only [List.cons_append, List.takeWhile_cons, List.dropWhile_cons, ha, if_true]
    exact ⟨by rw [ht.1], by rw [ht.2]⟩

theorem strip_suffix_ok (pre ds : List Char) (hds : isDigits ds = true) :
    strip_isoform_suffix (pre ++ '_' :: 'i' :: ds) = pre := by
  rw [isDigits, Bool.and_eq_true, Bool.not_eq_true', List.isEmpty_eq_false,
    List.all_eq_true] at hds
  obtain ⟨hne, hall⟩ := hds
  have hallrev : ∀ c ∈ ds.reverse, Char.isDigit c = true := by
    intro c hc
    exact hall c (List.mem_reverse.mp hc)
  have hrev : (pre ++ '_' :: 'i' :: ds).reverse = ds.reverse ++ 'i' :: '_' :: pre.reverse := by
    simp [List.reverse_append, List.reverse_cons, List.append_assoc]
  have htw := takeWhile_all_append hallrev (x := 'i') (by decide) ('_' :: pre.reverse)
  simp only [strip_isoform_suffix]
  rw [hrev, htw.1, htw.2]
  have hnerev : ds.reverse.isEmpty = false := by
    rw [List.isEmpty_eq_false]
    simpa using hne
  rw [hnerev]
  simp [List.reverse_reverse]

theorem strip_eq_self_of_no_suffix (acc : List Char)
    (h : ¬ ∃ pre ds : List Char, isDigits ds = true ∧ acc = pre ++ '_' :: 'i' :: ds) :
    strip_isoform_suffix acc = acc := by
  simp only [strip_isoform_suffix]
  by_cases h1 : (acc.reverse.takeWhile Char.isDigit).isEmpty = true
  · rw [h1]
    rfl
  · rw [Bool.not_eq_true] at h1
    rw [h1]
    simp only [Bool.false_eq_true, if_false]
    split
    · rename_i rest2 heq
      exfalso
      apply h
      refine ⟨rest2.reverse, (acc.reverse.takeWhile Char.isDigit).reverse, ?_, ?_⟩
      · rw [isDigits, Bool.and_eq_true, Bool.not_eq_true', List.isEmpty_eq_false]
        constructor
        · rw [List.isEmpty_eq_false] at h1
          simpa using h1
        · rw [List.all_eq_true]
          intro c hc
          exact List.mem_takeWhile_imp (List.mem_reverse.mp hc)
      · have h3 : acc.reverse = acc.reverse.takeWhile Char.isDigit ++ 'i' :: '_' :: rest2 := by
          rw [← heq]
          exact (List.takeWhile_append_dropWhile Char.isDigit acc.reverse).symm
        apply List.reverse_injective
        conv_lhs => rw [h3]
        simp [List.reverse_append, List.reverse_cons, List.append_assoc]
    · rfl

/-- C6: stripping a trailing isoform suffix _i<digits> from an accession
yields its gene id, whatever the prefix; an accession lacking such a
suffix makes the derivation fail with the isoform-suffix error instead of
producing a gene id. -/
theorem c6_gene_id_derivation :
    (∀ pre ds : List Char, isDigits ds = true →
        derive_gene_id (pre ++ '_' :: 'i' :: ds) = Except.ok pre) ∧
    (∀ acc : List Char,
        (¬ ∃ pre ds : List Char, isDigits ds = true ∧ acc = pre ++ '_' :: 'i' :: ds) →
        derive_gene_id acc = Except.error IsoformSuffixError) := by
  constructor
  · intro pre ds hds
    simp only [derive_gene_id]
    rw [strip_suffix_ok pre ds hds]
    rw [if_neg]
    intro hcontra
    have := congrArg List.length hcontra
    simp at this
  · intro acc hacc
    simp only [derive_gene_id]
    rw [strip_eq_self_of_no_suffix acc hacc, if_pos rfl]

/-- Witness for C6: GENEX_i1 and GENEX_i2 both derive GENEX, and GENEX
itself (no suffix; it contains no underscore at all) fails with the
isoform-suffix error. -/
theorem c6_witness :
    derive_gene_id ("GENEX".data ++ '_' :: 'i' :: ['1']) = Except.ok ("GENEX".data) ∧
    derive_gene_id ("GENEX".data ++ '_' :: 'i' :: ['2']) = Except.ok ("GENEX".data) ∧
    derive_gene_id ("GENEX".data) = Except.error IsoformSuffixError := by
  refine ⟨c6_gene_id_derivation.1 "GENEX".data ['1'] (by decide),
    c6_gene_id_derivation.1 "GENEX".data ['2'] (by decide),
    c6_gene_id_derivation.2 "GENEX".data ?_⟩
  rintro ⟨pre, ds, hds, heq⟩
  have hmem : ('_' : Char) ∈ "GENEX".data := by
    rw [heq]
    exact List.mem_append_right pre (List.mem_cons_self '_' ('i' :: ds))
  exact absurd hmem (by decide)

/-! Generic fold lemmas used to relate the Except-valued loops to their
total shadows. -/

theorem foldlM_ok {α β ε : Type} (l : List α) (f : β → α → Except ε β) (g : β → α → β)
    (H : ∀ s x, x ∈ l → f s x = Except.ok (g s x)) :
    ∀ s : β, l.foldlM f s = Except.ok (l.foldl g s) := by
  induction l with
  | nil => intro s; rfl
  | cons a t ih =>
    intro s
    rw [List.foldlM_cons, H s a (List.mem_cons_self a t), List.foldl_cons]
    show Except.ok (g s a) >>= (fun s => t.foldlM f s) = _
    rw [show (Except.ok (g s a) >>= fun s => t.foldlM f s) = t.foldlM f (g s a) from rfl]
    exact ih (fun s x hx => H s x (List.mem_cons_of_mem a hx)) (g s a)

theorem foldl_range_getD {α β : Type} (l : List α) (d : α) (f : β → α → β) :
    ∀ s0 : β, (List.range l.length).foldl (fun s j => f s (l.getD j d)) s0 = l.foldl f s0 := by
  induction l with
  | nil => intro s0; rfl
  | cons a t ih =>
    intro s0
    rw [List.length_cons, List.range_succ_eq_map, List.foldl_cons, List.foldl_map]
    simp only [List.getD_cons_zero, List.getD_cons_succ]
    exact ih (f s0 a)

theorem foldl_insert_eq_union {α : Type} [DecidableEq α] (l : List α) :
    ∀ s0 : Finset α, l.foldl (fun s x => insert x s) s0 = s0 ∪ l.toFinset := by
  induction l with
  | nil => intro s0; simp
  | cons a t ih =>
    intro s0
    rw [List.foldl_cons, ih, List.toFinset_cons]
    ext x
    simp only [Finset.mem_union, Finset.mem_insert, List.mem_toFinset]
    tauto

theorem getD_mem {α : Type} (l : List α) (i : Nat) (d : α) (hi : i < l.length) :
    l.getD i d ∈ l := by
  rw [List.getD_eq_getElem?_getD, List.getElem?_eq_getElem hi]
  exact List.getElem_mem hi

/-! The alignment accessors succeed on well-formed alignments and agree
with their total shadows. -/

theorem widthE_ok (a : Node_alignment) (h : a.aligned_nodes ≠ []) :
    a.widthE = Except.ok a.widthT := by
  unfold Node_alignment.widthE Node_alignment.widthT
  cases hc : a.aligned_nodes with
  | nil => exact absurd hc h
  | cons r rs => simp [hc]

theorem cellE_ok (a : Node_alignment) (i j : Nat) (hi : i < a.aligned_nodes.length)
    (hj0 : j < (a.aligned_nodes.getD i []).length) :
    a.cellE i j = Except.ok (a.cellT i j) := by
  have hrow : a.aligned_nodes.getD i [] = a.aligned_nodes[i] := by
    rw [List.getD_eq_getElem?_getD, List.getElem?_eq_getElem hi]
    rfl
  have hj : j < a.aligned_nodes[i].length := by rw [← hrow]; exact hj0
  unfold Node_alignment.cellE Node_alignment.cellT
  rw [List.getElem?_eq_getElem hi]
  show (match (a.aligned_nodes[i])[j]? with
    | none => Except.error PyErr.indexError
    | some c => Except.ok c) = _
  rw [List.getElem?_eq_getElem hj]
  show Except.ok (a.aligned_nodes[i])[j] = _
  rw [hrow, List.getD_eq_getElem?_getD, List.getElem?_eq_getElem hj]
  rfl

theorem wfB_unpack (a : Node_alignment) (hwf : a.wfB = true) :
    a.aligned_nodes ≠ [] ∧ a.transcript_names.length = a.aligned_nodes.length ∧
      ∀ row ∈ a.aligned_nodes, row.length = a.widthT := by
  simp only [Node_alignment.wfB, Bool.and_eq_true, Bool.not_eq_true', List.isEmpty_eq_false,
    beq_iff_eq, List.all_eq_true] at hwf
  obtain ⟨⟨hne, hlen⟩, hrect⟩ := hwf
  exact ⟨hne, hlen, fun row hrow => by simpa using hrect row hrow⟩

theorem get_node_setE_ok (a : Node_alignment) (hwf : a.wfB = true) :
    a.get_node_setE = Except.ok a.get_node_setT := by
  obtain ⟨hne, hlen, hrect⟩ := wfB_unpack a hwf
  unfold Node_alignment.get_node_setE Node_alignment.get_node_setT
  rw [widthE_ok a hne]
  show ((List.range a.numTrans).foldlM _ (∅ : Finset Node)) = _
  apply foldlM_ok
  intro s i hi
  have hi' : i < a.aligned_nodes.length := by
    rw [← hlen]
    exact List.mem_range.mp hi
  apply foldlM_ok
  intro s' j hj
  have hj' : j < (a.aligned_nodes.getD i []).length := by
    rw [hrect _ (getD_mem a.aligned_nodes i [] hi')]
    exact List.mem_range.mp hj
  rw [cellE_ok a i j hi' hj']
  rfl

theorem commonE_ok (A B : Node_alignment) (hA : A.wfB = true) (hB : B.wfB = true) :
    Node_alignment.compute_number_common_nodesE A B = Except.ok (Node_alignment.commonT A B) := by
  unfold Node_alignment.compute_number_common_nodesE Node_alignment.commonT
  rw [get_node_setE_ok A hA, get_node_setE_ok B hB]
  rfl

/-! Singleton alignments. -/

theorem wfB_singleton (t : String) (p : Node_path) :
    (Node_alignment.get_single_seq_node_alignment t p).wfB = true := by
  simp [Node_alignment.wfB, Node_alignment.get_single_seq_node_alignment, Node_alignment.widthT]

theorem get_node_setT_singleton (t : String) (p : Node_path) :
    (Node_alignment.get_single_seq_node_alignment t p).get_node_setT
      = p.node_obj_list.toFinset := by
  have h1 : (Node_alignment.get_single_seq_node_alignment t p).get_node_setT
      = (List.range (p.node_obj_list.map some).length).foldl
          (fun s j => match (p.node_obj_list.map some).getD j Node_alignment.GAP with
            | some nd => insert nd s
            | none => s) (∅ : Finset Node) := rfl
  rw [h1]
  calc (List.range (p.node_obj_list.map some).length).foldl
          (fun s j => match (p.node_obj_list.map some).getD j Node_alignment.GAP with
            | some nd => insert nd s
            | none => s) (∅ : Finset Node)
      = (p.node_obj_list.map some).foldl
          (fun s c => match c with | some nd => insert nd s | none => s) (∅ : Finset Node) :=
        foldl_range_getD (p.node_obj_list.map some) Node_alignment.GAP
          (fun s c => match c with | some nd => insert nd s | none => s) (∅ : Finset Node)
    _ = p.node_obj_list.foldl (fun s nd => insert nd s) (∅ : Finset Node) :=
        List.foldl_map some (fun s c => match c with | some nd => insert nd s | none => s)
          p.node_obj_list (∅ : Finset Node)
    _ = ∅ ∪ p.node_obj_list.toFinset := foldl_insert_eq_union p.node_obj_list (∅ : Finset Node)
    _ = p.node_obj_list.toFinset := by simp

theorem toFinset_map_eq_image {α β : Type} [DecidableEq α] [DecidableEq β] (f : α → β)
    (l : List α) : (l.map f).toFinset = l.toFinset.image f := by
  ext x
  simp [List.mem_toFinset, Finset.mem_image, List.mem_map]

theorem loc_ids_singleton (t : String) (p : Node_path) :
    Node_alignment.get_node_loc_ids
        (Node_alignment.get_single_seq_node_alignment t p).get_node_setT
      = (pathLocIds p).toFinset := by
  rw [get_node_setT_singleton]
  unfold Node_alignment.get_node_loc_ids pathLocIds
  rw [toFinset_map_eq_image]

/-! Matrix write and read lemmas. -/

theorem matSet_nil (i j v : Nat) : matSet [] i j v = [] := rfl

theorem matSet_cons_zero (r : List Nat) (t : List (List Nat)) (j v : Nat) :
    matSet (r :: t) 0 j v = r.set j v :: t := rfl

theorem matSet_cons_succ (r : List Nat) (t : List (List Nat)) (i j v : Nat) :
    matSet (r :: t) (i + 1) j v = r :: matSet t i j v := rfl

theorem matSet_length (m : List (List Nat)) (i j v : Nat) :
    (matSet m i j v).length = m.length := by
  unfold matSet
  rw [List.length_set]

theorem matSet_map_length (m : List (List Nat)) (i j v : Nat) :
    (matSet m i j v).map List.length = m.map List.length := by
  induction m generalizing i with
  | nil => rfl
  | cons r t ih =>
    cases i with
    | zero =>
      rw [matSet_cons_zero, List.map_cons, List.map_cons, List.length_set]
    | succ n =>
      rw [matSet_cons_succ, List.map_cons, List.map_cons, ih n]

theorem entryD_matSet_self (m : List (List Nat)) (i j v : Nat) (hi : i < m.length)
    (hj : j < (m.getD i []).length) : entryD (matSet m i j v) i j = v := by
  induction m generalizing i with
  | nil => simp at hi
  | cons r t ih =>
    cases i with
    | zero =>
      rw [matSet_cons_zero]
      unfold entryD
      simp only [List.getD_cons_zero]
      rw [List.getD_eq_getElem?_getD, List.getElem?_set_self (by simpa using hj)]
      rfl
    | succ n =>
      rw [matSet_cons_succ]
      unfold entryD
      simp only [List.getD_cons_succ]
      exact ih n (by simpa using hi) (by simpa using hj)

theorem entryD_matSet_other (m : List (List Nat)) (i j v a b : Nat)
    (hab : ¬ (a = i ∧ b = j)) : entryD (matSet m i j v) a b = entryD m a b := by
  induction m generalizing i a with
  | nil => rw [matSet_nil]
  | cons r t ih =>
    cases i with
    | zero =>
      rw [matSet_cons_zero]
      cases a with
      | zero =>
        have hb : b ≠ j := fun h => hab ⟨rfl, h⟩
        unfold entryD
        simp only [List.getD_cons_zero]
        rw [List.getD_eq_getElem?_getD, List.getElem?_set_ne (Ne.symm hb),
          ← List.getD_eq_getElem?_getD]
      | succ n =>
        unfold entryD
        simp only [List.getD_cons_succ]
    | succ ii =>
      rw [matSet_cons_succ]
      cases a with
      | zero =>
        unfold entryD
        simp only [List.getD_cons_zero]
      | succ n =>
        unfold entryD
        simp only [List.getD_cons_succ]
        have h' : ¬ (n = ii ∧ b = j) := fun ⟨h1, h2⟩ => hab ⟨by omega, h2⟩
        exact ih ii n h'

theorem row_len_of_dims (m : List (List Nat)) (n a : Nat)
    (hdims : m.map List.length = List.replicate m.length n) (ha : a < m.length) :
    (m.getD a []).length = n := by
  have h1 : (m.map List.length).getD a 0 = (m.getD a []).length :=
    getD_of_map List.length m a ha 0 []
  have h2 : (List.replicate m.length n).getD a 0 = n := by
    rw [List.getD_eq_getElem?_getD, List.getElem?_replicate]
    simp [ha]
  rw [hdims, h2] at h1
  exact h1.symm

theorem entryD_oob (m : List (List Nat)) (n : Nat) (hlen : m.length = n)
    (hdims : m.map List.length = List.replicate m.length n) (a b : Nat)
    (h : ¬ (a < n ∧ b < n)) : entryD m a b = 0 := by
  unfold entryD
  by_cases ha : a < n
  · have hb : ¬ b < n := fun hb => h ⟨ha, hb⟩
    have hrow : (m.getD a []).length = n := row_len_of_dims m n a hdims (hlen ▸ ha)
    rw [List.getD_eq_getElem?_getD (l := m.getD a []), List.getElem?_eq_none (by omega)]
    rfl
  · rw [List.getD_eq_getElem?_getD (l := m), List.getElem?_eq_none (by omega)]
    rfl

theorem simVal_comm (al : List Node_alignment) (i j : Nat) :
    simVal al i j = simVal al j i := by
  unfold simVal Node_alignment.commonT
  rw [Finset.inter_comm]

/-! The nested similarity loops as one fold over the visited pair list,
and the resulting entry characterization. -/

theorem foldl_flatMap {α β γ : Type} (l : List α) (f : α → List β) (g : γ → β → γ) :
    ∀ s : γ, (l.flatMap f).foldl g s = l.foldl (fun s x => (f x).foldl g s) s := by
  induction l with
  | nil => intro s; rfl
  | cons a t ih =>
    intro s
    rw [List.flatMap_cons, List.foldl_append, List.foldl_cons]
    exact ih _

theorem simT_eq_pairs (al : List Node_alignment) :
    simT al = (pairsL al.length).foldl (writePair al)
      (List.replicate al.length (List.replicate al.length 0)) := by
  unfold pairsL
  rw [foldl_flatMap]
  show (List.range (al.length - 1)).foldl
      (fun m i => (List.range' (i + 1) (al.length - 1 - i)).foldl
        (fun m j => matSet (matSet m i j (simVal al i j)) j i (simVal al i j)) m)
      (List.replicate al.length (List.replicate al.length 0)) = _
  congr 1
  funext m i
  rw [List.foldl_map]
  rfl

theorem mem_pairsL {n : Nat} {p : Nat × Nat} : p ∈ pairsL n ↔ p.1 < p.2 ∧ p.2 < n := by
  unfold pairsL
  rw [List.mem_flatMap]
  constructor
  · rintro ⟨i, hi, hmem⟩
    rw [List.mem_map] at hmem
    obtain ⟨j, hj, heq⟩ := hmem
    rw [List.mem_range] at hi
    rw [List.mem_range'] at hj
    obtain ⟨k, hk, rfl⟩ := hj
    subst heq
    constructor <;> simp <;> omega
  · rintro ⟨hab, hbn⟩
    refine ⟨p.1, ?_, ?_⟩
    · rw [List.mem_range]; omega
    · rw [List.mem_map]
      refine ⟨p.2, ?_, rfl⟩
      rw [List.mem_range']
      exact ⟨p.2 - (p.1 + 1), by omega, by omega⟩

theorem writePair_length (al : List Node_alignment) (m : List (List Nat)) (p : Nat × Nat) :
    (writePair al m p).length = m.length := by
  unfold writePair
  rw [matSet_length, matSet_length]

theorem writePair_map_length (al : List Node_alignment) (m : List (List Nat)) (p : Nat × Nat) :
    (writePair al m p).map List.length = m.map List.length := by
  unfold writePair
  rw [matSet_map_length, matSet_map_length]

theorem foldl_writePair_length (al : List Node_alignment) (P : List (Nat × Nat)) :
    ∀ m, (P.foldl (writePair al) m).length = m.length := by
  induction P with
  | nil => intro m; rfl
  | cons p rest ih =>
    intro m
    rw [List.foldl_cons, ih, writePair_length]

theorem foldl_writePair_map_length (al : List Node_alignment) (P : List (Nat × Nat)) :
    ∀ m, (P.foldl (writePair al) m).map List.length = m.map List.length := by
  induction P with
  | nil => intro m; rfl
  | cons p rest ih =>
    intro m
    rw [List.foldl_cons, ih, writePair_map_length]

theorem entryD_writePairs (al : List Node_alignment) (n : Nat) (P : List (Nat × Nat)) :
    ∀ (m : List (List Nat)), m.length = n →
      m.map List.length = List.replicate m.length n →
      (∀ p ∈ P, p.1 < n ∧ p.2 < n ∧ p.1 ≠ p.2) →
      ∀ a b, a < n → b < n →
        entryD (P.foldl (writePair al) m) a b
          = if (a, b) ∈ P ∨ (b, a) ∈ P then simVal al a b else entryD m a b := by
  induction P with
  | nil =>
    intro m _ _ _ a b _ _
    simp
  | cons p rest ih =>
    intro m hlen hdims hP a b ha hb
    obtain ⟨hp1, hp2, hpne⟩ := hP p (List.mem_cons_self p rest)
    have hlen' : (writePair al m p).length = n := by rw [writePair_length]; exact hlen
    have hdims' : (writePair al m p).map List.length
        = List.replicate (writePair al m p).length n := by
      rw [writePair_map_length, writePair_length]
      exact hdims
    have hPrest : ∀ q ∈ rest, q.1 < n ∧ q.2 < n ∧ q.1 ≠ q.2 :=
      fun q hq => hP q (List.mem_cons_of_mem p hq)
    rw [List.foldl_cons, ih (writePair al m p) hlen' hdims' hPrest a b ha hb]
    by_cases hmem : (a, b) ∈ rest ∨ (b, a) ∈ rest
    · rw [if_pos hmem, if_pos]
      rcases hmem with h | h
      · exact Or.inl (List.mem_cons_of_mem p h)
      · exact Or.inr (List.mem_cons_of_mem p h)
    · rw [if_neg hmem]
      have hin : m.length = n := hlen
      have hrow : ∀ c, c < n → (m.getD c []).length = n :=
        fun c hc => row_len_of_dims m n c hdims (hin ▸ hc)
      have hXlen : (matSet m p.1 p.2 (simVal al p.1 p.2)).length = n := by
        rw [matSet_length]; exact hlen
      have hXdims : (matSet m p.1 p.2 (simVal al p.1 p.2)).map List.length
          = List.replicate (matSet m p.1 p.2 (simVal al p.1 p.2)).length n := by
        rw [matSet_map_length, matSet_length]
        exact hdims
      have hXrow : ∀ c, c < n → ((matSet m p.1 p.2 (simVal al p.1 p.2)).getD c []).length = n :=
        fun c hc => row_len_of_dims _ n c hXdims (hXlen ▸ hc)
      by_cases hab1 : (a, b) = p
      · obtain ⟨p1, p2⟩ := p
        rw [Prod.mk.injEq] at hab1
        obtain ⟨rfl, rfl⟩ := hab1
        rw [if_pos (Or.inl (List.mem_cons_self _ _))]
        unfold writePair
        rw [entryD_matSet_other _ _ _ _ _ _ (fun hc => hpne (by omega))]
        exact entryD_matSet_self _ _ _ _ (hlen ▸ ha) ((hrow a ha) ▸ hb)
      · by_cases hab2 : (b, a) = p
        · obtain ⟨p1, p2⟩ := p
          rw [Prod.mk.injEq] at hab2
          obtain ⟨rfl, rfl⟩ := hab2
          rw [if_pos (Or.inr (List.mem_cons_self _ _))]
          unfold writePair
          rw [entryD_matSet_self _ _ _ _ (hXlen ▸ ha) ((hXrow a ha) ▸ hb)]
          exact (simVal_comm al a b).symm
        · rw [if_neg]
          · unfold writePair
            rw [entryD_matSet_other _ _ _ _ _ _
              (fun hc => hab2 (by rw [Prod.ext_iff]; exact ⟨hc.2.symm ▸ rfl, hc.1.symm ▸ rfl⟩))]
            rw [entryD_matSet_other _ _ _ _ _ _
              (fun hc => hab1 (by rw [Prod.ext_iff]; exact ⟨hc.1.symm ▸ rfl, hc.2.symm ▸ rfl⟩))]
          · rintro (h | h)
            · rcases List.mem_cons.mp h with h' | h'
              · exact hab1 h'
              · exact hmem (Or.inl h')
            · rcases List.mem_cons.mp h with h' | h'
              · exact hab2 h'
              · exact hmem (Or.inr h')

theorem simT_length (al : List Node_alignment) : (simT al).length = al.length := by
  rw [simT_eq_pairs, foldl_writePair_length, List.length_replicate]

theorem simT_map_length (al : List Node_alignment) :
    (simT al).map List.length = List.replicate al.length al.length := by
  rw [simT_eq_pairs, foldl_writePair_map_length]
  rw [List.map_replicate, List.length_replicate]

theorem entryD_replicate_zero (n a b : Nat) :
    entryD (List.replicate n (List.replicate n 0)) a b = 0 := by
  unfold entryD
  by_cases ha : a < n <;> by_cases hb : b < n <;>
    simp [List.getD_eq_getElem?_getD, List.getElem?_replicate, ha, hb]

theorem entryD_simT (al : List Node_alignment) (a b : Nat) :
    entryD (simT al) a b
      = if a ≠ b ∧ a < al.length ∧ b < al.length then simVal al a b else 0 := by
  by_cases hin : a < al.length ∧ b < al.length
  · rw [simT_eq_pairs]
    rw [entryD_writePairs al al.length (pairsL al.length) _
      (by rw [List.length_replicate])
      (by simp)
      (fun p hp => by
        have := mem_pairsL.mp hp
        exact ⟨by omega, this.2, by omega⟩)
      a b hin.1 hin.2]
    rw [entryD_replicate_zero]
    by_cases hab : a = b
    · subst hab
      rw [if_neg, if_neg]
      · simp
      · rintro (h | h) <;> exact absurd (mem_pairsL.mp h).1 (by omega)
    · rw [if_pos, if_pos ⟨hab, hin⟩]
      rcases Nat.lt_or_ge a b with h | h
      · exact Or.inl (mem_pairsL.mpr ⟨h, hin.2⟩)
      · exact Or.inr (mem_pairsL.mpr ⟨by omega, hin.1⟩)
  · rw [if_neg (fun hc => hin hc.2)]
    exact entryD_oob (simT al) al.length (simT_length al)
      (by rw [simT_map_length, simT_length]) a b hin

/-! The similarity matrix loop succeeds on well-formed alignments and
agrees with its total shadow. -/

theorem simE_ok (al : List Node_alignment) (hwf : ∀ x ∈ al, x.wfB = true) :
    Gene_splice_modeler.compute_similarity_matrixE al = Except.ok (simT al) := by
  unfold Gene_splice_modeler.compute_similarity_matrixE
  show (List.range (al.length - 1)).foldlM _ _ = _
  have hbody : ∀ (m : List (List Nat)) (i : Nat), i ∈ List.range (al.length - 1) →
      ((List.range' (i + 1) (al.length - 1 - i)).foldlM (fun m j => do
        let common ← Node_alignment.compute_number_common_nodesE
          (al.getD i dfltAlign) (al.getD j dfltAlign)
        pure (matSet (matSet m i j common.card) j i common.card)) m)
      = Except.ok ((List.range' (i + 1) (al.length - 1 - i)).foldl
          (fun m j => matSet (matSet m i j (simVal al i j)) j i (simVal al i j)) m) := by
    intro m i hi
    have hi' : i < al.length := by
      have := List.mem_range.mp hi
      omega
    apply foldlM_ok
    intro m' j hj
    have hj' : j < al.length := by
      rw [List.mem_range'] at hj
      obtain ⟨k, hk, rfl⟩ := hj
      omega
    rw [commonE_ok (al.getD i dfltAlign) (al.getD j dfltAlign)
      (hwf _ (getD_mem al i dfltAlign hi')) (hwf _ (getD_mem al j dfltAlign hj'))]
    rfl
  rw [foldlM_ok _ _ _ hbody]
  rfl

theorem build_alignments_wf (paths : List Node_path) :
    ∀ x ∈ Gene_splice_modeler.build_alignments paths, x.wfB = true := by
  intro x hx
  unfold Gene_splice_modeler.build_alignments at hx
  rw [List.mem_map] at hx
  obtain ⟨p, hp, rfl⟩ := hx
  exact wfB_singleton p.transcript_name p

/-- C4: for every gene's list of decoded paths, the similarity computation
succeeds and returns a square NxN matrix (N the isoform count) with zero
diagonal, symmetric in its two indices. -/
theorem c4_square_symmetric_zero_diag (paths : List Node_path) (i j : Nat) :
    Gene_splice_modeler.compute_similarity_matrixE (Gene_splice_modeler.build_alignments paths)
        = Except.ok (simT (Gene_splice_modeler.build_alignments paths)) ∧
    (simT (Gene_splice_modeler.build_alignments paths)).length = paths.length ∧
    (simT (Gene_splice_modeler.build_alignments paths)).map List.length
        = List.replicate paths.length paths.length ∧
    entryD (simT (Gene_splice_modeler.build_alignments paths)) i i = 0 ∧
    entryD (simT (Gene_splice_modeler.build_alignments paths)) i j
        = entryD (simT (Gene_splice_modeler.build_alignments paths)) j i := by
  have hlen : (Gene_splice_modeler.build_alignments paths).length = paths.length := by
    unfold Gene_splice_modeler.build_alignments
    rw [List.length_map]
  refine ⟨simE_ok _ (build_alignments_wf paths), by rw [simT_length, hlen],
    by rw [simT_map_length, hlen], ?_, ?_⟩
  · rw [entryD_simT]
    simp
  · rw [entryD_simT, entryD_simT]
    by_cases h : i ≠ j ∧ i < (Gene_splice_modeler.build_alignments paths).length
        ∧ j < (Gene_splice_modeler.build_alignments paths).length
    · rw [if_pos h, if_pos ⟨Ne.symm h.1, h.2.2, h.2.1⟩]
      exact simVal_comm _ i j
    · rw [if_neg h, if_neg (fun hc => h ⟨Ne.symm hc.1, hc.2.2, hc.2.1⟩)]

/-- C1: for every gene's decoded paths and every pair of distinct isoform
indices, the matrix cell is the number of distinct locus ids occurring in
both isoforms' node lists, the projection discarding transcript name and
sequence. -/
theorem c1_cell_is_shared_locus_count (paths : List Node_path) (i j : Nat)
    (hi : i < paths.length) (hj : j < paths.length) (hij : i ≠ j) :
    Gene_splice_modeler.compute_similarity_matrixE (Gene_splice_modeler.build_alignments paths)
        = Except.ok (simT (Gene_splice_modeler.build_alignments paths)) ∧
    entryD (simT (Gene_splice_modeler.build_alignments paths)) i j
      = ((pathLocIds (paths.getD i dfltPath)).toFinset
          ∩ (pathLocIds (paths.getD j dfltPath)).toFinset).card := by
  refine ⟨simE_ok _ (build_alignments_wf paths), ?_⟩
  have hlen : (Gene_splice_modeler.build_alignments paths).length = paths.length := by
    unfold Gene_splice_modeler.build_alignments
    rw [List.length_map]
  rw [entryD_simT]
  rw [if_pos ⟨hij, by omega, by omega⟩]
  unfold simVal
  have hgd : ∀ (k : Nat), k < paths.length →
      (Gene_splice_modeler.build_alignments paths).getD k dfltAlign
        = Node_alignment.get_single_seq_node_alignment
            (paths.getD k dfltPath).transcript_name (paths.getD k dfltPath) := by
    intro k hk
    unfold Gene_splice_modeler.build_alignments
    exact getD_of_map _ paths k hk dfltAlign dfltPath
  rw [hgd i hi, hgd j hj]
  unfold Node_alignment.commonT
  rw [loc_ids_singleton, loc_ids_singleton]

/-- Witness for C1: the spec's end-to-end example.  Isoforms GENEG_i1
(path 1:0-9 2:10-19) and GENEG_i2 (path 1:0-9 3:10-19) over 20-base
sequences sharing their first 10 bases share exactly locus 1, and the
similarity matrix is [[0, 1], [1, 0]]. -/
theorem c1_witness :
    simT (Gene_splice_modeler.build_alignments
        [(Node_path.build "GENEG_i1" ("1:0-9 2:10-19".data) ("ACGTACGTAACCGGTTACGT".data)
            ⟨0, []⟩).1,
         (Node_path.build "GENEG_i2" ("1:0-9 3:10-19".data) ("ACGTACGTAATTTTTTTTTT".data)
            (Node_path.build "GENEG_i1" ("1:0-9 2:10-19".data) ("ACGTACGTAACCGGTTACGT".data)
              ⟨0, []⟩).2).1])
      = [[0, 1], [1, 0]] ∧
    entryD (simT (Gene_splice_modeler.build_alignments
        [(Node_path.build "GENEG_i1" ("1:0-9 2:10-19".data) ("ACGTACGTAACCGGTTACGT".data)
            ⟨0, []⟩).1,
         (Node_path.build "GENEG_i2" ("1:0-9 3:10-19".data) ("ACGTACGTAATTTTTTTTTT".data)
            (Node_path.build "GENEG_i1" ("1:0-9 2:10-19".data) ("ACGTACGTAACCGGTTACGT".data)
              ⟨0, []⟩).2).1])) 0 1
      = ((pathLocIds ([(Node_path.build "GENEG_i1" ("1:0-9 2:10-19".data)
            ("ACGTACGTAACCGGTTACGT".data) ⟨0, []⟩).1,
         (Node_path.build "GENEG_i2" ("1:0-9 3:10-19".data) ("ACGTACGTAATTTTTTTTTT".data)
            (Node_path.build "GENEG_i1" ("1:0-9 2:10-19".data) ("ACGTACGTAACCGGTTACGT".data)
              ⟨0, []⟩).2).1].getD 0 dfltPath)).toFinset
          ∩ (pathLocIds ([(Node_path.build "GENEG_i1" ("1:0-9 2:10-19".data)
            ("ACGTACGTAACCGGTTACGT".data) ⟨0, []⟩).1,
         (Node_path.build "GENEG_i2" ("1:0-9 3:10-19".data) ("ACGTACGTAATTTTTTTTTT".data)
            (Node_path.build "GENEG_i1" ("1:0-9 2:10-19".data) ("ACGTACGTAACCGGTTACGT".data)
              ⟨0, []⟩).2).1].getD 1 dfltPath)).toFinset).card :=
  ⟨by decide,
   (c1_cell_is_shared_locus_count
      [(Node_path.build "GENEG_i1" ("1:0-9 2:10-19".data) ("ACGTACGTAACCGGTTACGT".data)
          ⟨0, []⟩).1,
       (Node_path.build "GENEG_i2" ("1:0-9 3:10-19".data) ("ACGTACGTAATTTTTTTTTT".data)
          (Node_path.build "GENEG_i1" ("1:0-9 2:10-19".data) ("ACGTACGTAACCGGTTACGT".data)
            ⟨0, []⟩).2).1]
      0 1 (by decide) (by decide) (by decide)).2⟩

/-- C10: on every list of N well-formed alignments the similarity
computation succeeds and yields an N x N matrix of natural-number counts;
with N = 0 or N = 1 no pair is compared and the matrix is all zeros. -/
theorem c10_matrix_shape_any_alignments (al : List Node_alignment)
    (hwf : ∀ x ∈ al, x.wfB = true) :
    Gene_splice_modeler.compute_similarity_matrixE al = Except.ok (simT al) ∧
    (simT al).length = al.length ∧
    (simT al).map List.length = List.replicate al.length al.length ∧
    (al.length ≤ 1 →
      simT al = List.replicate al.length (List.replicate al.length 0)) := by
  refine ⟨simE_ok al hwf, simT_length al, simT_map_length al, ?_⟩
  intro hsmall
  rw [simT_eq_pairs]
  have hp : pairsL al.length = [] := by
    unfold pairsL
    have : al.length - 1 = 0 := by omega
    rw [this]
    rfl
  rw [hp]
  rfl

/-- Witness for C10 at a concrete one-row alignment list (N = 1, the
all-zeros clause included). -/
theorem c10_witness :
    (∀ x ∈ [Node_alignment.mk ["g_i1"] [[some dfltNode]]], x.wfB = true) ∧
    (Gene_splice_modeler.compute_similarity_matrixE [Node_alignment.mk ["g_i1"] [[some dfltNode]]]
        = Except.ok (simT [Node_alignment.mk ["g_i1"] [[some dfltNode]]]) ∧
    (simT [Node_alignment.mk ["g_i1"] [[some dfltNode]]]).length = 1 ∧
    (simT [Node_alignment.mk ["g_i1"] [[some dfltNode]]]).map List.length
        = List.replicate 1 1 ∧
    (List.length [Node_alignment.mk ["g_i1"] [[some dfltNode]]] ≤ 1 →
      simT [Node_alignment.mk ["g_i1"] [[some dfltNode]]]
        = List.replicate 1 (List.replicate 1 0))) :=
  ⟨by decide, c10_matrix_shape_any_alignments [Node_alignment.mk ["g_i1"] [[some dfltNode]]]
    (by decide)⟩

/-! The driver's gene loop. -/

theorem processGenesE_ok : ∀ (info : List (String × List IsoStruct)) (st : PyState),
    processGenesE info st = Except.ok (processGenesT info st) := by
  intro info
  induction info with
  | nil => intro st; rfl
  | cons g rest ih =>
    intro st
    unfold processGenesE processGenesT
    by_cases hlt : g.2.length < 2
    · rw [if_pos hlt, if_pos hlt]
      exact ih st
    · rw [if_neg hlt, if_neg hlt]
      show ((Gene_splice_modeler.compute_similarity_matrixE
          (Gene_splice_modeler.build_alignments (decodeGenePaths g.2 st).1)) >>= _) = _
      rw [simE_ok _ (build_alignments_wf (decodeGenePaths g.2 st).1)]
      show ((processGenesE rest (decodeGenePaths g.2 st).2) >>= _) = _
      rw [ih]
      rfl

theorem processGenesT_keys : ∀ (info : List (String × List IsoStruct)) (st : PyState),
    (processGenesT info st).1.map Prod.fst
      = (info.filter (fun g => 2 ≤ g.2.length)).map Prod.fst := by
  intro info
  induction info with
  | nil => intro st; rfl
  | cons g rest ih =>
    intro st
    unfold processGenesT
    by_cases hlt : g.2.length < 2
    · rw [if_pos hlt, List.filter_cons,
        if_neg (by simp only [decide_eq_true_eq]; omega)]
      exact ih st
    · rw [if_neg hlt, List.filter_cons,
        if_pos (by simp only [decide_eq_true_eq]; omega)]
      show (g.1 :: (processGenesT rest (decodeGenePaths g.2 st).2).1.map Prod.fst) = _
      rw [List.map_cons, ih]

theorem eq_of_mem_of_nodup_keys {β : Type} : ∀ (info : List (String × β)),
    (info.map Prod.fst).Nodup → ∀ p q : String × β, p ∈ info → q ∈ info → p.1 = q.1 → p = q := by
  intro info
  induction info with
  | nil => intro _ p q hp; simp at hp
  | cons g rest ih =>
    intro hnd p q hp hq hpq
    rw [List.map_cons, List.nodup_cons] at hnd
    obtain ⟨hg, hnd'⟩ := hnd
    rcases List.mem_cons.mp hp with rfl | hp'
    · rcases List.mem_cons.mp hq with rfl | hq'
      · rfl
      · exact absurd (hpq ▸ List.mem_map_of_mem Prod.fst hq') hg
    · rcases List.mem_cons.mp hq with rfl | hq'
      · exact absurd (hpq ▸ List.mem_map_of_mem Prod.fst hp') hg
      · exact ih hnd' p q hp' hq' hpq

/-- C7: with gene ids unique (as produced by the grouping dict), the gene
loop succeeds, the genes that receive a similarity matrix are exactly
those whose record group has two or more isoforms, and a gene whose group
holds at most one isoform is skipped entirely: it contributes no output
entry. -/
theorem c7_single_isoform_gene_skipped (info : List (String × List IsoStruct)) (st : PyState)
    (gene : String) (isos : List IsoStruct)
    (hnd : (info.map Prod.fst).Nodup) (hmem : (gene, isos) ∈ info) (hone : isos.length ≤ 1) :
    processGenesE info st = Except.ok (processGenesT info st) ∧
    (processGenesT info st).1.map Prod.fst
        = (info.filter (fun g => 2 ≤ g.2.length)).map Prod.fst ∧
    gene ∉ (processGenesT info st).1.map Prod.fst := by
  refine ⟨processGenesE_ok info st, processGenesT_keys info st, ?_⟩
  rw [processGenesT_keys]
  intro hgene
  rw [List.mem_map] at hgene
  obtain ⟨q, hq, hqe⟩ := hgene
  have hq' : q ∈ info := List.mem_of_mem_filter hq
  have hq2 : 2 ≤ q.2.length := by simpa using List.of_mem_filter hq
  have heq := eq_of_mem_of_nodup_keys info hnd (gene, isos) q hmem hq' (by simpa using hqe.symm)
  rw [← heq] at hq2
  simp only at hq2
  omega

/-- Witness for C7: a two-gene batch where GENEA has one isoform and GENEB
has two; GENEA produces no output entry. -/
theorem c7_witness :
    processGenesE
        [("GENEA", [⟨"GENEA_i1", "1:0-1".data, "AC".data⟩]),
         ("GENEB", [⟨"GENEB_i1", "1:0-1".data, "AC".data⟩,
                    ⟨"GENEB_i2", "1:0-1".data, "AC".data⟩])] ⟨0, []⟩
      = Except.ok (processGenesT
        [("GENEA", [⟨"GENEA_i1", "1:0-1".data, "AC".data⟩]),
         ("GENEB", [⟨"GENEB_i1", "1:0-1".data, "AC".data⟩,
                    ⟨"GENEB_i2", "1:0-1".data, "AC".data⟩])] ⟨0, []⟩) ∧
    (processGenesT
        [("GENEA", [⟨"GENEA_i1", "1:0-1".data, "AC".data⟩]),
         ("GENEB", [⟨"GENEB_i1", "1:0-1".data, "AC".data⟩,
                    ⟨"GENEB_i2", "1:0-1".data, "AC".data⟩])] ⟨0, []⟩).1.map Prod.fst
      = (([("GENEA", [⟨"GENEA_i1", "1:0-1".data, "AC".data⟩]),
         ("GENEB", [⟨"GENEB_i1", "1:0-1".data, "AC".data⟩,
                    ⟨"GENEB_i2", "1:0-1".data, "AC".data⟩])] :
            List (String × List IsoStruct)).filter (fun g => 2 ≤ g.2.length)).map Prod.fst ∧
    "GENEA" ∉ (processGenesT
        [("GENEA", [⟨"GENEA_i1", "1:0-1".data, "AC".data⟩]),
         ("GENEB", [⟨"GENEB_i1", "1:0-1".data, "AC".data⟩,
                    ⟨"GENEB_i2", "1:0-1".data, "AC".data⟩])] ⟨0, []⟩).1.map Prod.fst :=
  c7_single_isoform_gene_skipped
    [("GENEA", [⟨"GENEA_i1", "1:0-1".data, "AC".data⟩]),
     ("GENEB", [⟨"GENEB_i1", "1:0-1".data, "AC".data⟩,
                ⟨"GENEB_i2", "1:0-1".data, "AC".data⟩])] ⟨0, []⟩
    "GENEA" [⟨"GENEA_i1", "1:0-1".data, "AC".data⟩]
    (by decide) (by decide) (by decide)
